import Mathlib

/-!
A verification development for the nixplay rclone backend's path-pattern
routing engine.

Strings are modelled as `List Char` (the Go code only indexes and slices
paths; for the ASCII paths of the virtual hierarchy byte indices and
character indices coincide).  Each Go regular expression of the fixed
pattern table is anchored (`^...$`) and simple enough that its
`FindStringSubmatch` behaviour is embedded directly as a total function;
the embedding keeps Go regexp semantics: `.` does not match a newline,
while a negated class such as `[^/]` does.

`path.Join` / `path.Clean` from the Go standard library are embedded by
their documented segment semantics (drop empty and `.` segments, resolve
`..` against the segment stack, keep leading `/`, return `.` for an empty
result).
-/

/-- `strings.Trim(s, "/")`: remove leading and trailing `/` characters. -/
def trimSeps (s : List Char) : List Char :=
  ((s.dropWhile (· = '/')).reverse.dropWhile (· = '/')).reverse

/-- Split a path on `/`; always returns a non-empty list of segments. -/
def splitOnSep : List Char → List (List Char)
  | [] => [[]]
  | c :: cs =>
    match splitOnSep cs with
    | [] => [[c]]
    | r :: rs => if c = '/' then [] :: r :: rs else (c :: r) :: rs

/-- Join segments with `/` (inverse of `splitOnSep` on slash-free segments). -/
def joinSegs : List (List Char) → List Char
  | [] => []
  | [s] => s
  | s :: rest => s ++ '/' :: joinSegs rest

/-- One step of `path.Clean`'s segment processing: drop empty and `.` segments,
resolve `..` against the stack (`acc` holds processed segments, most recent
first). -/
def cleanStep (rooted : Bool) (acc : List (List Char)) (seg : List Char) :
    List (List Char) :=
  if seg = [] ∨ seg = ['.'] then acc
  else if seg = ['.', '.'] then
    match acc with
    | [] => if rooted then [] else [seg]
    | top :: rest => if top = ['.', '.'] then seg :: acc else rest
  else seg :: acc

/-- Go `path.Clean`. -/
def goClean (s : List Char) : List Char :=
  if s = [] then ['.']
  else
    let rooted : Bool := s.head? = some '/'
    let segs := (splitOnSep s).foldl (cleanStep rooted) []
    let body := joinSegs segs.reverse
    if rooted then '/' :: body
    else if body = [] then ['.'] else body

/-- Go `path.Join` of two elements: non-empty elements are joined with `/`
and the result cleaned; the empty string is returned when both are empty. -/
def goJoin (a b : List Char) : List Char :=
  if a = [] then (if b = [] then [] else goClean b)
  else if b = [] then goClean a
  else goClean (a ++ '/' :: b)

/-- Consume `p` as a literal prefix of `s`, returning the remainder. -/
def stripPfx : List Char → List Char → Option (List Char)
  | [], s => some s
  | _ :: _, [] => none
  | a :: ps, b :: ss => if a = b then stripPfx ps ss else none

/-- Split at the last `/` of `s`: `some (before, after)` with `after`
slash-free, or `none` when `s` has no `/`. -/
def splitAtLastSep : List Char → Option (List Char × List Char)
  | [] => none
  | c :: cs =>
    match splitAtLastSep cs with
    | some (a, b) => some (c :: a, b)
    | none => if c = '/' then some ([], cs) else none

/-- `FindStringSubmatch` of an anchored literal pattern such as `^$` or
`^album$`: the whole input must equal the literal; no capture groups. -/
def reExact (kw : List Char) (s : List Char) : Option (List (List Char)) :=
  if s = kw then some [s] else none

/-- `FindStringSubmatch` of `^kw/(.+)$`: the input is `kw/` followed by a
non-empty remainder containing no newline (Go's `.` excludes `\n`); one
capture group holding that remainder. -/
def reAllAfter (kw : List Char) (s : List Char) : Option (List (List Char)) :=
  match stripPfx (kw ++ ['/']) s with
  | none => none
  | some r => if r = [] ∨ '\n' ∈ r then none else some [s, r]

/-- `FindStringSubmatch` of `^kw/(.+?)/([^/]+)$`: the input is `kw/` then a
remainder splitting at its last `/` into a non-empty, newline-free group 1
and a non-empty slash-free group 2.  (The non-greedy group forces the split
at the last `/` because group 2 excludes `/`.) -/
def reItem (kw : List Char) (s : List Char) : Option (List (List Char)) :=
  match stripPfx (kw ++ ['/']) s with
  | none => none
  | some r =>
    match splitAtLastSep r with
    | none => none
    | some (g1, g2) =>
      if g1 = [] ∨ '\n' ∈ g1 ∨ g2 = [] then none else some [s, g1, g2]

example : trimSeps "/a/b/".data = "a/b".data := by decide
example : goClean "a//b/./c/..".data = "a/b".data := by decide
example : goClean "".data = ".".data := by decide
example : goClean "/../a".data = "/a".data := by decide
example : goJoin "album".data "Vacation/img1.jpg".data
    = "album/Vacation/img1.jpg".data := by decide
example : reItem "album".data "album/Vacation/img1.jpg".data
    = some ["album/Vacation/img1.jpg".data, "Vacation".data, "img1.jpg".data] := by
  decide
example : reItem "album".data "album/a/b/c".data
    = some ["album/a/b/c".data, "a/b".data, "c".data] := by decide
example : reItem "album".data "album/Vacation".data = none := by decide
example : reAllAfter "album".data "album/Vacation".data
    = some ["album/Vacation".data, "Vacation".data] := by decide

/-- `nixplaytypes.ContainerType`: the two collection kinds. -/
inductive ContainerType
  | album
  | playlist
  deriving DecidableEq

/-- A directory entry as produced by the listing callbacks (`fs.NewDir`):
a name and a timestamp (timestamps are opaque, modelled as `Nat`). -/
structure DirEntry where
  name : List Char
  time : Nat
  deriving DecidableEq

/-- The error values of the backend: the fixed sentinel errors of the
`fs` package and of `nixplay.go`, and a wrapper for errors propagated
from the remote client (`fmt.Errorf("...: %w", err)`). -/
inductive GoError
  | dirNotFound
  | objectNotFound
  | cantUpload
  | cantMkdir
  | cantRmdir
  | clientError (code : Nat)
  | wrapped (e : GoError)
  deriving DecidableEq

/-- The `lister` interface: the subset of `Fs` needed by the listing
callbacks of the pattern table. -/
structure Lister where
  listContainers : List Char → ContainerType → Except GoError (List DirEntry)
  listPhotos : List Char → ContainerType → List Char →
    Except GoError (List DirEntry)
  dirTime : Nat

/-- `dirPattern`: one rule of the table.  `re` keeps the source regular
expression text; `find` embeds the compiled pattern's
`FindStringSubmatch` (so `mustCompile` is modelled by construction).
`containerType` is modelled from the spec: the `collectionType`
enumerated field that `nixplay.go` reads off the matched rule is not
present in the pattern-file snapshot under verification; the spec assigns
kind A (album) or kind B (playlist) per rule, and the root rule never has
its kind read, so it carries the default. -/
structure DirPattern where
  re : List Char
  find : List Char → Option (List (List Char))
  canUpload : Bool := false
  canMkdir : Bool := false
  isFile : Bool := false
  containerType : ContainerType := .album
  toEntries : Option (Lister → List Char → List (List Char) →
    Except GoError (List DirEntry)) := none

/-- Rule 0: `^$` — the filesystem root; lists the two collection kinds. -/
def p0Root : DirPattern :=
  { re := "^$".data
    find := reExact []
    toEntries := some fun f pfx _m =>
      .ok [⟨pfx ++ "album".data, f.dirTime⟩,
           ⟨pfx ++ "playlist".data, f.dirTime⟩] }

/-- Rule 1: `^album$` — the album kind root; lists all albums. -/
def p1AlbumRoot : DirPattern :=
  { re := "^album$".data
    find := reExact "album".data
    toEntries := some fun f pfx _m => f.listContainers pfx .album }

/-- Rule 2: `^album/(.+)$` — a named album; `canMkdir`; lists its photos. -/
def p2AlbumColl : DirPattern :=
  { re := "^album/(.+)$".data
    find := reAllAfter "album".data
    canMkdir := true
    toEntries := some fun f pfx m => f.listPhotos pfx .album (m.getD 1 []) }

/-- Rule 3: `^album/(.+?)/([^/]+)$` — a photo inside an album; a file,
`canUpload`. -/
def p3AlbumItem : DirPattern :=
  { re := "^album/(.+?)/([^/]+)$".data
    find := reItem "album".data
    canUpload := true
    isFile := true }

/-- Rule 4: `^playlist$` — the playlist kind root; lists all playlists. -/
def p4PlaylistRoot : DirPattern :=
  { re := "^playlist$".data
    find := reExact "playlist".data
    containerType := .playlist
    toEntries := some fun f pfx _m => f.listContainers pfx .playlist }

/-- Rule 5: `^playlist/(.+)$` — a named playlist; `canMkdir`; lists its
photos. -/
def p5PlaylistColl : DirPattern :=
  { re := "^playlist/(.+)$".data
    find := reAllAfter "playlist".data
    canMkdir := true
    containerType := .playlist
    toEntries := some fun f pfx m => f.listPhotos pfx .playlist (m.getD 1 []) }

/-- Rule 6: `^playlist/(.+?)/([^/]+)$` — a photo inside a playlist; a file,
`canUpload`. -/
def p6PlaylistItem : DirPattern :=
  { re := "^playlist/(.+?)/([^/]+)$".data
    find := reItem "playlist".data
    canUpload := true
    isFile := true
    containerType := .playlist }

/-- The pattern table, in declaration order (the source writes the seven
rules inline in one slice literal; they are spelled out as named
definitions here). -/
def patterns : List DirPattern :=
  [p0Root, p1AlbumRoot, p2AlbumColl, p3AlbumItem,
   p4PlaylistRoot, p5PlaylistColl, p6PlaylistItem]

/-- The result triple of `dirPatterns.match`: the capture slice (`[]`
models Go's nil slice), the prefix, and the winning rule (the Go pointer
into the table is modelled as the rule's index paired with the rule). -/
structure MatchResult where
  caps : List (List Char)
  pfx : List Char
  rule : Option (Nat × DirPattern)

/-- The loop of `dirPatterns.match`: scan `ds` in order starting at index
`i`, skipping rules whose `isFile` differs from the requested style, and
return the first rule whose pattern matches `absPath`, together with its
captures and index. -/
def matchLoop (ds : List DirPattern) (isFile : Bool) (absPath : List Char)
    (i : Nat) : Option (List (List Char) × Nat × DirPattern) :=
  match ds with
  | [] => none
  | p :: rest =>
    if p.isFile ≠ isFile then matchLoop rest isFile absPath (i + 1)
    else
      match p.find absPath with
      | some m => some (m, i, p)
      | none => matchLoop rest isFile absPath (i + 1)

/-- `dirPatterns.match`: trim the item path, join it with the root, compute
the prefix (the part of the absolute path after the root, trimmed, with a
trailing `/` when non-empty), and scan the table.  Go's byte slice
`absPath[len(root):]` is modelled as `List.drop`; on an out-of-range index
Go would panic where `drop` returns `[]` (unreachable for the roots the
backend constructs, which are cleaned and slash-trimmed). -/
def dirMatch (root itemPath : List Char) (isFile : Bool) : MatchResult :=
  let ip := trimSeps itemPath
  let absPath := goJoin root ip
  let p0 := trimSeps (absPath.drop root.length)
  let pfx := if p0 = [] then p0 else p0 ++ ['/']
  match matchLoop patterns isFile absPath 0 with
  | some (m, i, p) => ⟨m, pfx, some (i, p)⟩
  | none => ⟨[], [], none⟩

example : (dirMatch [] "album/Vacation/img1.jpg".data true).rule.map Prod.fst
    = some 3 := by decide
example : (dirMatch [] "album/Vacation".data true).rule.map Prod.fst
    = none := by decide
example : (dirMatch [] "album/Vacation".data false).rule.map Prod.fst
    = some 2 := by decide
example : (dirMatch [] [] false).rule.map Prod.fst = some 0 := by decide
example : (dirMatch "album".data "Vacation/img1.jpg".data true).caps
    = ["album/Vacation/img1.jpg".data, "Vacation".data, "img1.jpg".data] := by
  decide
example : (dirMatch "album".data "Vacation".data false).pfx
    = "Vacation/".data := by decide

/-- The client call `Fs.NewObject` would issue after its gate: look up
`match[1]` as a container of the matched rule's kind, then `match[2]` as a
photo in it. -/
structure ObjectLookup where
  ctype : ContainerType
  containerName : List Char
  photoName : List Char
  deriving DecidableEq

/-- The client call `Fs.Put` would issue after its gate: add `match[2]` as
a photo to the container named `match[1]` of the matched rule's kind. -/
structure UploadCall where
  ctype : ContainerType
  containerName : List Char
  fileName : List Char
  deriving DecidableEq

/-- The client call `Fs.Mkdir` / `Fs.Rmdir` would issue after their gates:
create or delete the container named `match[1]` of the matched rule's
kind. -/
structure ContainerCall where
  ctype : ContainerType
  containerName : List Char
  deriving DecidableEq

/-- `Fs.List`: no rule, or a file rule, or a rule without a listing
callback, is `fs.ErrorDirNotFound`; otherwise the rule's callback runs on
the prefix and captures. -/
def FsList (f : Lister) (root dir : List Char) :
    Except GoError (List DirEntry) :=
  let r := dirMatch root dir false
  match r.rule with
  | none => .error .dirNotFound
  | some (_, p) =>
    if p.isFile then .error .dirNotFound
    else
      match p.toEntries with
      | some g => g f r.pfx r.caps
      | none => .error .dirNotFound

/-- `Fs.NewObject`'s routing gate: no rule is `fs.ErrorObjectNotFound`;
otherwise the container/photo lookup proceeds with `match[1]` and
`match[2]`. -/
def FsNewObject (root remote : List Char) : Except GoError ObjectLookup :=
  let r := dirMatch root remote true
  match r.rule with
  | none => .error .objectNotFound
  | some (_, p) =>
    .ok ⟨p.containerType, r.caps.getD 1 [], r.caps.getD 2 []⟩

/-- `Fs.Put`'s routing gate: `errCantUpload` when no rule matched, or the
matched rule is not a file rule, or its `canUpload` is false; otherwise
the upload proceeds with `match[1]` and `match[2]`. -/
def FsPut (root remote : List Char) : Except GoError UploadCall :=
  let r := dirMatch root remote true
  match r.rule with
  | none => .error .cantUpload
  | some (_, p) =>
    if p.isFile && p.canUpload then
      .ok ⟨p.containerType, r.caps.getD 1 [], r.caps.getD 2 []⟩
    else .error .cantUpload

/-- `Fs.Mkdir`'s routing gate: no rule is `fs.ErrorDirNotFound`; a rule
without `canMkdir` is `errCantMkdir`; otherwise container creation
proceeds with `match[1]`. -/
def FsMkdir (root dir : List Char) : Except GoError ContainerCall :=
  let r := dirMatch root dir false
  match r.rule with
  | none => .error .dirNotFound
  | some (_, p) =>
    if p.canMkdir then .ok ⟨p.containerType, r.caps.getD 1 []⟩
    else .error .cantMkdir

/-- `Fs.Rmdir`'s routing gate: no rule is `fs.ErrorDirNotFound`; a rule
without `canMkdir` is `errCantRmdir`; otherwise container lookup and
deletion proceed with `match[1]`. -/
def FsRmdir (root dir : List Char) : Except GoError ContainerCall :=
  let r := dirMatch root dir false
  match r.rule with
  | none => .error .dirNotFound
  | some (_, p) =>
    if p.canMkdir then .ok ⟨p.containerType, r.caps.getD 1 []⟩
    else .error .cantRmdir

/-- The router contract as the spec words it: trim the requested path,
join it with the root, and take the first rule — in declaration order —
whose style flag agrees with the requested style and whose pattern
matches the absolute path; the prefix is the portion of the absolute path
after the root, trimmed of separators, with one trailing separator when
non-empty. -/
def resolveSpec (root reqPath : List Char) (wantFile : Bool) : MatchResult :=
  let trimmed := trimSeps reqPath
  let abs := goJoin root trimmed
  let p0 := trimSeps (abs.drop root.length)
  let pfx := if p0 = [] then [] else p0 ++ ['/']
  match patterns.enum.find? fun ip =>
      ip.2.isFile == wantFile && (ip.2.find abs).isSome with
  | some (i, p) => ⟨(p.find abs).getD [], pfx, some (i, p)⟩
  | none => ⟨[], [], none⟩

/-- The scan of `dirPatterns.match` is the first entry of the enumerated
table whose style flag agrees and whose pattern matches. -/
lemma matchLoop_eq_find (wf : Bool) (abs : List Char) :
    ∀ (ds : List DirPattern) (i : Nat),
      matchLoop ds wf abs i =
        ((ds.enumFrom i).find? fun q =>
            q.2.isFile == wf && (q.2.find abs).isSome).map
          fun q => ((q.2.find abs).getD [], q.1, q.2)
  | [], _ => rfl
  | p :: rest, i => by
    by_cases h : p.isFile = wf
    · cases hf : p.find abs with
      | none =>
        simp [matchLoop, List.enumFrom, List.find?, h, hf,
          matchLoop_eq_find wf abs rest (i + 1)]
      | some m =>
        simp [matchLoop, List.enumFrom, List.find?, h, hf]
    · have hb : (p.isFile == wf) = false := by simp [h]
      simp [matchLoop, List.enumFrom, List.find?, h, hb,
        matchLoop_eq_find wf abs rest (i + 1)]

/-- `dirPatterns.match` coincides with the spec-side resolver. -/
lemma dirMatch_eq_resolveSpec (root reqPath : List Char) (wf : Bool) :
    dirMatch root reqPath wf = resolveSpec root reqPath wf := by
  simp only [dirMatch, resolveSpec, List.enum, matchLoop_eq_find]
  cases h : (patterns.enumFrom 0).find? fun q =>
      q.2.isFile == wf && (q.2.find (goJoin root (trimSeps reqPath))).isSome with
  | none => simp [h]
  | some v =>
    by_cases hp :
        trimSeps ((goJoin root (trimSeps reqPath)).drop root.length) = [] <;>
      simp [h, hp]

/-- A successful scan yields a rule of the table whose style flag agrees
with the requested one and whose pattern produced the captures. -/
lemma matchLoop_some (wf : Bool) (abs : List Char) :
    ∀ (ds : List DirPattern) (i : Nat) (m : List (List Char)) (j : Nat)
      (q : DirPattern), matchLoop ds wf abs i = some (m, j, q) →
      q ∈ ds ∧ q.isFile = wf ∧ q.find abs = some m
  | [], _, _, _, _, h => by simp [matchLoop] at h
  | p :: rest, i, m, j, q, h => by
    by_cases hs : p.isFile = wf
    · rw [matchLoop, if_neg (by simp [hs])] at h
      cases hf : p.find abs with
      | none =>
        rw [hf] at h
        have := matchLoop_some wf abs rest (i + 1) m j q h
        exact ⟨List.mem_cons_of_mem _ this.1, this.2⟩
      | some m' =>
        rw [hf] at h
        simp only [Option.some.injEq, Prod.mk.injEq] at h
        obtain ⟨hm, _, hq⟩ := h
        subst hm; subst hq
        exact ⟨List.mem_cons_self _ _, hs, hf⟩
    · rw [matchLoop, if_pos (by simp [hs])] at h
      have := matchLoop_some wf abs rest (i + 1) m j q h
      exact ⟨List.mem_cons_of_mem _ this.1, this.2⟩

/-- A successful item-pattern match always carries three captures: the
full match and the two groups. -/
lemma reItem_some_len (kw s : List Char) (m : List (List Char))
    (h : reItem kw s = some m) : m.length = 3 := by
  unfold reItem at h
  split at h
  · simp at h
  · split at h
    · simp at h
    · split at h
      · simp at h
      · simp only [Option.some.injEq] at h
        subst h; rfl

/-- C1: for every root string, requested path, and requested style flag,
the match operation trims leading/trailing separators from the requested
path, joins it with the root, then iterates the pattern table in
declaration order, skipping every rule whose `isFile` flag differs from
the requested style, and returns the first style-matching rule whose
compiled pattern matches the joined absolute path, without considering
any later rule: it coincides with the spec-side resolver built from the
enumerated table's first style-and-pattern match. -/
theorem routerFirstMatchWins (root reqPath : List Char) (wf : Bool) :
    dirMatch root reqPath wf = resolveSpec root reqPath wf :=
  dirMatch_eq_resolveSpec root reqPath wf

/-- C10: whenever match with file style returns a rule, the capture slice
has length exactly three, so the accesses to elements 1 and 2 performed
by `NewObject` and `Put` are in bounds. -/
theorem fileMatchCapsLen (root remote : List Char) (i : Nat) (q : DirPattern)
    (h : (dirMatch root remote true).rule = some (i, q)) :
    (dirMatch root remote true).caps.length = 3 := by
  simp only [dirMatch] at h ⊢
  cases hm : matchLoop patterns true (goJoin root (trimSeps remote)) 0 with
  | none => simp [hm] at h
  | some v =>
    obtain ⟨m, j, q'⟩ := v
    simp only [hm] at h ⊢
    obtain ⟨hq', hstyle, hfind⟩ :=
      matchLoop_some true (goJoin root (trimSeps remote)) patterns 0 m j q' hm
    simp only [patterns, List.mem_cons, List.not_mem_nil, or_false] at hq'
    rcases hq' with h1 | h1 | h1 | h1 | h1 | h1 | h1 <;> subst h1 <;>
      first
        | exact absurd hstyle (by decide)
        | exact reItem_some_len _ _ _
            (by simpa [p3AlbumItem, p6PlaylistItem] using hfind)

/-- Witness for C10 at a concrete item path. -/
theorem fileMatchCapsLenWitness :
    (dirMatch [] "album/a/b".data true).caps.length = 3 :=
  fileMatchCapsLen [] "album/a/b".data 3 p3AlbumItem rfl

/-- A successful literal-prefix strip means the input is the prefix
followed by the remainder. -/
lemma stripPfx_some_eq : ∀ (p s r : List Char), stripPfx p s = some r →
    s = p ++ r
  | [], s, r, h => by
    simp only [stripPfx, Option.some.injEq] at h
    simpa using h
  | _ :: _, [], r, h => by simp [stripPfx] at h
  | a :: ps, b :: ss, r, h => by
    by_cases hab : a = b
    · subst hab
      rw [stripPfx, if_pos rfl] at h
      simpa using stripPfx_some_eq ps ss r h
    · rw [stripPfx, if_neg hab] at h
      cases h

/-- An exact-pattern match means the input equals the literal. -/
lemma reExact_eq (kw s : List Char) (h : (reExact kw s).isSome = true) :
    s = kw := by
  unfold reExact at h
  split at h
  · assumption
  · simp at h

/-- A collection-pattern match means the input is the keyword, a slash,
and a remainder. -/
lemma reAllAfter_shape (kw s : List Char)
    (h : (reAllAfter kw s).isSome = true) : ∃ r, s = kw ++ '/' :: r := by
  unfold reAllAfter at h
  split at h
  · simp at h
  · next r heq =>
    exact ⟨r, by simpa using stripPfx_some_eq _ _ _ heq⟩

/-- An item-pattern match means the input is the keyword, a slash, and a
remainder. -/
lemma reItem_shape (kw s : List Char)
    (h : (reItem kw s).isSome = true) : ∃ r, s = kw ++ '/' :: r := by
  unfold reItem at h
  split at h
  · simp at h
  · next r heq =>
    exact ⟨r, by simpa using stripPfx_some_eq _ _ _ heq⟩

section PairwiseExclusion
variable {s : List Char}

lemma excl01 (h : (reExact [] s).isSome = true)
    (h' : (reExact "album".data s).isSome = true) : False := by
  have e := reExact_eq _ _ h; have e' := reExact_eq _ _ h'
  subst e; simp at e'

lemma excl02 (h : (reExact [] s).isSome = true)
    (h' : (reAllAfter "album".data s).isSome = true) : False := by
  have e := reExact_eq _ _ h; obtain ⟨r, e'⟩ := reAllAfter_shape _ _ h'
  subst e; simp at e'

lemma excl04 (h : (reExact [] s).isSome = true)
    (h' : (reExact "playlist".data s).isSome = true) : False := by
  have e := reExact_eq _ _ h; have e' := reExact_eq _ _ h'
  subst e; simp at e'

lemma excl05 (h : (reExact [] s).isSome = true)
    (h' : (reAllAfter "playlist".data s).isSome = true) : False := by
  have e := reExact_eq _ _ h; obtain ⟨r, e'⟩ := reAllAfter_shape _ _ h'
  subst e; simp at e'

lemma excl12 (h : (reExact "album".data s).isSome = true)
    (h' : (reAllAfter "album".data s).isSome = true) : False := by
  have e := reExact_eq _ _ h; obtain ⟨r, e'⟩ := reAllAfter_shape _ _ h'
  subst e; simp at e'

lemma excl14 (h : (reExact "album".data s).isSome = true)
    (h' : (reExact "playlist".data s).isSome = true) : False := by
  have e := reExact_eq _ _ h; have e' := reExact_eq _ _ h'
  subst e; simp at e'

lemma excl15 (h : (reExact "album".data s).isSome = true)
    (h' : (reAllAfter "playlist".data s).isSome = true) : False := by
  have e := reExact_eq _ _ h; obtain ⟨r, e'⟩ := reAllAfter_shape _ _ h'
  subst e; simp at e'

lemma excl24 (h : (reAllAfter "album".data s).isSome = true)
    (h' : (reExact "playlist".data s).isSome = true) : False := by
  obtain ⟨r, e⟩ := reAllAfter_shape _ _ h; have e' := reExact_eq _ _ h'
  subst e'; simp at e

lemma excl25 (h : (reAllAfter "album".data s).isSome = true)
    (h' : (reAllAfter "playlist".data s).isSome = true) : False := by
  obtain ⟨r, e⟩ := reAllAfter_shape _ _ h
  obtain ⟨r', e'⟩ := reAllAfter_shape _ _ h'
  subst e; simp at e'

lemma excl45 (h : (reExact "playlist".data s).isSome = true)
    (h' : (reAllAfter "playlist".data s).isSome = true) : False := by
  have e := reExact_eq _ _ h; obtain ⟨r, e'⟩ := reAllAfter_shape _ _ h'
  subst e; simp at e'

lemma excl36 (h : (reItem "album".data s).isSome = true)
    (h' : (reItem "playlist".data s).isSome = true) : False := by
  obtain ⟨r, e⟩ := reItem_shape _ _ h
  obtain ⟨r', e'⟩ := reItem_shape _ _ h'
  subst e; simp at e'

end PairwiseExclusion

/-- C6: for every absolute path, at most one rule of the table with a
given style flag matches it — the rules within each style partition are
mutually exclusive (in particular this holds for every path of the
defined grammar). -/
theorem tableMutualExclusion (s : List Char) (wf : Bool) :
    (patterns.filter fun p => p.isFile == wf && (p.find s).isSome).length
      ≤ 1 := by
  cases wf with
  | true =>
    cases h3 : (reItem "album".data s).isSome <;>
      cases h6 : (reItem "playlist".data s).isSome <;>
      first
        | (simp [patterns, p0Root, p1AlbumRoot, p2AlbumColl, p3AlbumItem,
            p4PlaylistRoot, p5PlaylistColl, p6PlaylistItem, h3, h6]; done)
        | exact (excl36 h3 h6).elim
  | false =>
    cases h0 : (reExact [] s).isSome <;>
      cases h1 : (reExact "album".data s).isSome <;>
      cases h2 : (reAllAfter "album".data s).isSome <;>
      cases h4 : (reExact "playlist".data s).isSome <;>
      cases h5 : (reAllAfter "playlist".data s).isSome <;>
      first
        | (simp [patterns, p0Root, p1AlbumRoot, p2AlbumColl, p3AlbumItem,
            p4PlaylistRoot, p5PlaylistColl, p6PlaylistItem,
            h0, h1, h2, h4, h5]; done)
        | exact (excl01 h0 h1).elim
        | exact (excl02 h0 h2).elim
        | exact (excl04 h0 h4).elim
        | exact (excl05 h0 h5).elim
        | exact (excl12 h1 h2).elim
        | exact (excl14 h1 h4).elim
        | exact (excl15 h1 h5).elim
        | exact (excl24 h2 h4).elim
        | exact (excl25 h2 h5).elim
        | exact (excl45 h4 h5).elim

/-- C4: match(root="", "album/Vacation/img1.jpg", file style) matches the
kind-A (album) item rule — index 3 of the table — with capture group 1
"Vacation", capture group 2 "img1.jpg", and `canUpload` true. -/
theorem albumItemConcrete :
    (dirMatch [] "album/Vacation/img1.jpg".data true).rule.map Prod.fst
        = some 3 ∧
    (dirMatch [] "album/Vacation/img1.jpg".data true).rule.map
        (fun r => r.2.canUpload) = some true ∧
    (dirMatch [] "album/Vacation/img1.jpg".data true).caps.getD 1 []
        = "Vacation".data ∧
    (dirMatch [] "album/Vacation/img1.jpg".data true).caps.getD 2 []
        = "img1.jpg".data := by
  exact ⟨by decide, by decide, by decide, by decide⟩

/-- C5: match(root="", "album/Vacation", file style) — one segment under a
collection-kind root, looked up in file style — returns the empty result
(nil captures, empty prefix, nil rule): both file-style rules require a
second segment after the collection name. -/
theorem oneSegmentFileNoMatch :
    dirMatch [] "album/Vacation".data true = ⟨[], [], none⟩ := rfl

/-- C7: in the fixed table, `canUpload` is true exactly on the two item
rules (indices 3 and 6, the file-style rules), `canMkdir` exactly on the
two collection rules (indices 2 and 5, directory-style), and consequently
every `canUpload` rule is a file rule and every `canMkdir` rule is a
directory rule. -/
theorem tableFlagLayout :
    patterns.map (fun p => p.canUpload)
        = [false, false, false, true, false, false, true] ∧
    patterns.map (fun p => p.canMkdir)
        = [false, false, true, false, false, true, false] ∧
    patterns.map (fun p => p.isFile)
        = [false, false, false, true, false, false, true] ∧
    patterns.all (fun p =>
      (!p.canUpload || p.isFile) && (!p.canMkdir || !p.isFile)) = true := by
  exact ⟨by decide, by decide, by decide, by decide⟩

/-- C8: match(root="", "", directory style) matches the root rule (index
0), and that rule's listing callback produces exactly the two entries
named prefix++"album" and prefix++"playlist", for any lister (hence any
timestamp) and any prefix. -/
theorem rootListing (f : Lister) (pfx : List Char) (m : List (List Char)) :
    ∃ p : DirPattern, (dirMatch [] [] false).rule = some (0, p) ∧
      p.toEntries.map (fun g => g f pfx m) =
        some (.ok [⟨pfx ++ "album".data, f.dirTime⟩,
                   ⟨pfx ++ "playlist".data, f.dirTime⟩]) :=
  ⟨p0Root, rfl, rfl⟩

/-- C2 counterexample: at root "" and path "album/Vacation", the
file-style match returns no rule, yet `Put` returns the fixed cant-upload
error rather than the object-not-found error the claim requires for
file-style operations. -/
theorem putNoMatchCex :
    (dirMatch [] "album/Vacation".data true).rule = none ∧
    FsPut [] "album/Vacation".data = .error .cantUpload ∧
    FsPut [] "album/Vacation".data ≠ .error .objectNotFound :=
  ⟨rfl, rfl, fun h => GoError.noConfusion (Except.error.inj h)⟩

/-- C2 as amended: on no match, `NewObject` returns object-not-found and
`List`/`Mkdir`/`Rmdir` return directory-not-found, but `Put` returns its
fixed cant-upload error (the code folds the no-match case into the
not-permitted branch); when a rule matches but its `canMkdir` is false,
`Mkdir` returns the fixed cant-mkdir error and `Rmdir` the fixed
cant-rmdir error.  (A file-style match with `canUpload` false cannot
occur: both file rules set `canUpload`, see the table layout.) -/
theorem opErrorMapping (root p : List Char) (f : Lister) :
    ((dirMatch root p true).rule = none →
      FsNewObject root p = .error .objectNotFound ∧
      FsPut root p = .error .cantUpload) ∧
    ((dirMatch root p false).rule = none →
      FsList f root p = .error .dirNotFound ∧
      FsMkdir root p = .error .dirNotFound ∧
      FsRmdir root p = .error .dirNotFound) ∧
    ((dirMatch root p false).rule.map (fun r => r.2.canMkdir) = some false →
      FsMkdir root p = .error .cantMkdir ∧
      FsRmdir root p = .error .cantRmdir) := by
  refine ⟨fun h => ?_, fun h => ?_, fun h => ?_⟩
  · simp [FsNewObject, FsPut, h]
  · simp [FsList, FsMkdir, FsRmdir, h]
  · cases hr : (dirMatch root p false).rule with
    | none => rw [hr] at h; simp at h
    | some v =>
      obtain ⟨i, q⟩ := v
      rw [hr] at h
      simp at h
      simp [FsMkdir, FsRmdir, hr, h]

/-- `splitAtLastSep` fails exactly on slash-free inputs. -/
lemma splitAtLastSep_eq_none : ∀ r : List Char,
    splitAtLastSep r = none ↔ '/' ∉ r
  | [] => by simp [splitAtLastSep]
  | c :: cs => by
    rw [splitAtLastSep]
    cases h : splitAtLastSep cs with
    | some ab =>
      obtain ⟨x, y⟩ := ab
      have hmem : '/' ∈ cs := by
        by_contra hn
        rw [(splitAtLastSep_eq_none cs).mpr hn] at h
        cases h
      simp [hmem]
    | none =>
      have hcs : '/' ∉ cs := (splitAtLastSep_eq_none cs).mp h
      by_cases hc : c = '/'
      · simp [hc]
      · simp [hcs, eq_comm, hc]

/-- Splitting after appending a slash-free suffix finds exactly that
split. -/
lemma splitAtLastSep_append : ∀ (g1 g2 : List Char), '/' ∉ g2 →
    splitAtLastSep (g1 ++ '/' :: g2) = some (g1, g2)
  | [], g2, h => by
    rw [List.nil_append, splitAtLastSep, (splitAtLastSep_eq_none g2).mpr h]
    simp
  | a :: g1, g2, h => by
    rw [List.cons_append, splitAtLastSep, splitAtLastSep_append g1 g2 h]

/-- Stripping a list off itself-plus-remainder yields the remainder. -/
lemma stripPfx_self : ∀ (p r : List Char), stripPfx p (p ++ r) = some r
  | [], _ => rfl
  | a :: ps, r => by simp [stripPfx, stripPfx_self ps r]

/-- The item pattern on a path of the exact item shape succeeds with the
expected captures. -/
lemma reItem_of_shape (kw g1 g2 : List Char) (h2 : '/' ∉ g2) (hg2 : g2 ≠ [])
    (hg1 : g1 ≠ []) (hn : '\n' ∉ g1) :
    reItem kw (kw ++ '/' :: (g1 ++ '/' :: g2))
      = some [kw ++ '/' :: (g1 ++ '/' :: g2), g1, g2] := by
  unfold reItem
  rw [show kw ++ '/' :: (g1 ++ '/' :: g2)
      = (kw ++ ['/']) ++ (g1 ++ '/' :: g2) by simp]
  simp only [stripPfx_self, splitAtLastSep_append g1 g2 h2]
  simp [hg1, hg2, hn]

/-- The album item pattern rejects playlist paths at the first
character. -/
lemma reItem_album_playlist (t : List Char) :
    reItem "album".data ("playlist".data ++ '/' :: t) = none := by
  simp [reItem, stripPfx]

lemma joinSegs_cons_cons (a b : List Char) (l : List (List Char)) :
    joinSegs (a :: b :: l) = a ++ '/' :: joinSegs (b :: l) := rfl

lemma joinSegs_append_single : ∀ (l : List (List Char)) (x : List Char),
    l ≠ [] → joinSegs (l ++ [x]) = joinSegs l ++ '/' :: x
  | [], _, h => absurd rfl h
  | [_], _, _ => rfl
  | a :: b :: l, x, _ => by
    have ih := joinSegs_append_single (b :: l) x (by simp)
    simp only [List.cons_append] at ih ⊢
    rw [joinSegs_cons_cons, joinSegs_cons_cons, ih, List.append_assoc]
    rfl

lemma joinSegs_ne_nil : ∀ (l : List (List Char)), l ≠ [] →
    (∀ t ∈ l, t ≠ []) → joinSegs l ≠ []
  | [], h, _ => absurd rfl h
  | [a], _, hall => by simpa [joinSegs] using hall a (by simp)
  | _ :: _ :: _, _, _ => by rw [joinSegs_cons_cons]; simp

/-- Every character of a joined segment list is a separator or a
character of some segment. -/
lemma joinSegs_mem : ∀ (l : List (List Char)) (c : Char), c ∈ joinSegs l →
    c = '/' ∨ ∃ t ∈ l, c ∈ t
  | [], c, h => by simp [joinSegs] at h
  | [a], c, h => by
    right
    exact ⟨a, by simp, by simpa [joinSegs] using h⟩
  | a :: b :: l, c, h => by
    rw [joinSegs_cons_cons, List.mem_append, List.mem_cons] at h
    rcases h with h | h | h
    · exact Or.inr ⟨a, by simp, h⟩
    · exact Or.inl h
    · rcases joinSegs_mem (b :: l) c h with h' | ⟨t, ht, hc⟩
      · exact Or.inl h'
      · refine Or.inr ⟨t, ?_, hc⟩
        simp only [List.mem_cons] at ht ⊢
        tauto

lemma joinSegs_head? : ∀ (a : List Char) (l : List (List Char)), a ≠ [] →
    (joinSegs (a :: l)).head? = a.head?
  | _, [], _ => rfl
  | a, _ :: _, ha => by
    rw [joinSegs_cons_cons]
    exact List.head?_append_of_ne_nil a ha

lemma joinSegs_getLast? (l : List (List Char)) (x : List Char) (hx : x ≠ []) :
    (joinSegs (l ++ [x])).getLast? = x.getLast? := by
  cases l with
  | nil => rfl
  | cons a l' =>
    rw [joinSegs_append_single _ x (by simp)]
    rw [List.getLast?_append_of_ne_nil _ (by simp)]
    cases x with
    | nil => exact absurd rfl hx
    | cons c cs => exact List.getLast?_cons_cons

lemma head?_ne_of_not_mem {c : Char} {l : List Char} (h : c ∉ l) :
    l.head? ≠ some c := by
  intro hc
  cases l with
  | nil => cases hc
  | cons a l' =>
    simp only [List.head?, Option.some.injEq] at hc
    exact h (hc ▸ List.mem_cons_self a l')

lemma getLast?_ne_of_not_mem {c : Char} {l : List Char} (h : c ∉ l) :
    l.getLast? ≠ some c := by
  intro hc
  obtain ⟨hne, heq⟩ :=
    List.mem_getLast?_eq_getLast (Option.mem_def.mpr hc)
  exact h (heq ▸ List.getLast_mem hne)

lemma dropWhile_id_of_head {l : List Char} (h : l.head? ≠ some '/') :
    l.dropWhile (· = '/') = l := by
  cases l with
  | nil => rfl
  | cons a l' =>
    have ha : ¬(a = '/') := fun e => h (by simp [e])
    simp [List.dropWhile_cons, ha]

/-- Trimming separators is the identity on lists that neither start nor
end with one. -/
lemma trimSeps_id {s : List Char} (h1 : s.head? ≠ some '/')
    (h2 : s.getLast? ≠ some '/') : trimSeps s = s := by
  unfold trimSeps
  rw [dropWhile_id_of_head h1]
  rw [dropWhile_id_of_head (by rwa [List.head?_reverse])]
  exact List.reverse_reverse s

lemma splitOnSep_ne_nil : ∀ s : List Char, splitOnSep s ≠ []
  | [] => by simp [splitOnSep]
  | c :: cs => by
    rw [splitOnSep]
    cases h : splitOnSep cs with
    | nil => simp
    | cons r rs => by_cases hc : c = '/' <;> simp [hc]

lemma splitOnSep_no_sep : ∀ s : List Char, '/' ∉ s → splitOnSep s = [s]
  | [], _ => rfl
  | c :: cs, h => by
    have hc : ¬(c = '/') := fun e => h (by simp [e])
    have hcs : '/' ∉ cs := fun m => h (by simp [m])
    rw [splitOnSep, splitOnSep_no_sep cs hcs]
    simp [hc]

lemma splitOnSep_append : ∀ (x y : List Char), '/' ∉ x →
    splitOnSep (x ++ '/' :: y) = x :: splitOnSep y
  | [], y, _ => by
    rw [List.nil_append, splitOnSep]
    cases h : splitOnSep y with
    | nil => exact absurd h (splitOnSep_ne_nil y)
    | cons r rs => simp
  | c :: x, y, h => by
    have hc : ¬(c = '/') := fun e => h (by simp [e])
    have hx : '/' ∉ x := fun m => h (by simp [m])
    rw [List.cons_append, splitOnSep, splitOnSep_append x y hx]
    simp [hc]

/-- Splitting inverts joining for non-empty lists of slash-free
segments. -/
lemma splitOnSep_joinSegs : ∀ (l : List (List Char)), l ≠ [] →
    (∀ t ∈ l, '/' ∉ t) → splitOnSep (joinSegs l) = l
  | [], h, _ => absurd rfl h
  | [a], _, hall => by
    simpa [joinSegs] using splitOnSep_no_sep a (hall a (by simp))
  | a :: b :: l, _, hall => by
    rw [joinSegs_cons_cons, splitOnSep_append a _ (hall a (by simp)),
      splitOnSep_joinSegs (b :: l) (by simp)
        (fun t ht => hall t (by simp [List.mem_cons] at ht ⊢; tauto))]

/-- `path.Clean`'s segment fold keeps every well-behaved segment. -/
lemma foldl_cleanStep (rooted : Bool) :
    ∀ (l acc : List (List Char)),
      (∀ t ∈ l, t ≠ [] ∧ t ≠ ['.'] ∧ t ≠ ['.', '.']) →
      l.foldl (cleanStep rooted) acc = l.reverse ++ acc
  | [], _, _ => by simp
  | a :: l, acc, hall => by
    have ha := hall a (by simp)
    have hstep : cleanStep rooted acc a = a :: acc := by
      unfold cleanStep
      rw [if_neg (by simp [ha.1, ha.2.1]), if_neg ha.2.2]
    rw [List.foldl_cons, hstep,
      foldl_cleanStep rooted l (a :: acc)
        (fun t ht => hall t (by simp [ht]))]
    simp

/-- `path.Clean` is the identity on joins of non-empty lists of
non-empty, slash-free, non-dot segments. -/
lemma goClean_joinSegs (l : List (List Char)) (hl : l ≠ [])
    (hall : ∀ t ∈ l, t ≠ [] ∧ '/' ∉ t ∧ t ≠ ['.'] ∧ t ≠ ['.', '.']) :
    goClean (joinSegs l) = joinSegs l := by
  have hne : joinSegs l ≠ [] :=
    joinSegs_ne_nil l hl (fun t ht => (hall t ht).1)
  have hhead : (joinSegs l).head? ≠ some '/' := by
    cases l with
    | nil => exact absurd rfl hl
    | cons a l' =>
      rw [joinSegs_head? a l' (hall a (by simp)).1]
      exact head?_ne_of_not_mem (hall a (by simp)).2.1
  have hsplit : splitOnSep (joinSegs l) = l :=
    splitOnSep_joinSegs l hl (fun t ht => (hall t ht).2.1)
  have hrooted : decide ((joinSegs l).head? = some '/') = false := by
    simp [hhead]
  unfold goClean
  rw [if_neg hne]
  simp only [hrooted, hsplit]
  rw [foldl_cleanStep false l []
    (fun t ht => ⟨(hall t ht).1, (hall t ht).2.2.1, (hall t ht).2.2.2⟩)]
  simp [hne]

/-- The facts needed about an item-shaped path built from a keyword, a
non-empty list of clean intermediate segments, and a final slash-free
segment: trimming and join-with-empty-root leave it unchanged, it
decomposes as keyword / group1 / group2, and the keyword's item pattern
matches it with those groups. -/
lemma item_path_facts (kw : List Char) (segs : List (List Char))
    (g2 : List Char)
    (hkw : kw ≠ [] ∧ '/' ∉ kw ∧ kw ≠ ['.'] ∧ kw ≠ ['.', '.'])
    (hsegs : segs ≠ [])
    (hgood : ∀ t ∈ segs,
      t ≠ [] ∧ '/' ∉ t ∧ '\n' ∉ t ∧ t ≠ ['.'] ∧ t ≠ ['.', '.'])
    (hg2 : g2 ≠ []) (hg2s : '/' ∉ g2) (hg2d : g2 ≠ ['.'])
    (hg2dd : g2 ≠ ['.', '.']) :
    trimSeps (joinSegs (kw :: (segs ++ [g2])))
        = joinSegs (kw :: (segs ++ [g2])) ∧
    goJoin [] (joinSegs (kw :: (segs ++ [g2])))
        = joinSegs (kw :: (segs ++ [g2])) ∧
    joinSegs (kw :: (segs ++ [g2]))
        = kw ++ '/' :: (joinSegs segs ++ '/' :: g2) ∧
    reItem kw (joinSegs (kw :: (segs ++ [g2])))
        = some [joinSegs (kw :: (segs ++ [g2])), joinSegs segs, g2] := by
  have hall : ∀ t ∈ kw :: (segs ++ [g2]),
      t ≠ [] ∧ '/' ∉ t ∧ t ≠ ['.'] ∧ t ≠ ['.', '.'] := by
    intro t ht
    rcases List.mem_cons.mp ht with rfl | ht'
    · exact hkw
    · rcases List.mem_append.mp ht' with hts | htg
      · obtain ⟨a, b, _, d, e⟩ := hgood t hts
        exact ⟨a, b, d, e⟩
      · simp only [List.mem_singleton] at htg
        subst htg
        exact ⟨hg2, hg2s, hg2d, hg2dd⟩
  have hlne : (kw :: (segs ++ [g2])) ≠ [] := by simp
  have hne : joinSegs (kw :: (segs ++ [g2])) ≠ [] :=
    joinSegs_ne_nil _ hlne (fun t ht => (hall t ht).1)
  have hhead : (joinSegs (kw :: (segs ++ [g2]))).head? ≠ some '/' := by
    rw [joinSegs_head? kw _ hkw.1]
    exact head?_ne_of_not_mem hkw.2.1
  have hlast : (joinSegs (kw :: (segs ++ [g2]))).getLast? ≠ some '/' := by
    rw [show kw :: (segs ++ [g2]) = (kw :: segs) ++ [g2] by simp,
      joinSegs_getLast? (kw :: segs) g2 hg2]
    exact getLast?_ne_of_not_mem hg2s
  have hshape : joinSegs (kw :: (segs ++ [g2]))
      = kw ++ '/' :: (joinSegs segs ++ '/' :: g2) := by
    obtain ⟨s0, segs', rfl⟩ : ∃ s0 segs', segs = s0 :: segs' := by
      cases segs with
      | nil => exact absurd rfl hsegs
      | cons a b => exact ⟨a, b, rfl⟩
    rw [← joinSegs_append_single (s0 :: segs') g2 (by simp),
      List.cons_append]
    exact joinSegs_cons_cons kw s0 (segs' ++ [g2])
  refine ⟨trimSeps_id hhead hlast, ?_, hshape, ?_⟩
  · rw [goJoin, if_pos rfl, if_neg hne]
    exact goClean_joinSegs _ hlne hall
  · rw [hshape]
    exact reItem_of_shape kw (joinSegs segs) g2 hg2s hg2
      (joinSegs_ne_nil segs hsegs fun t ht => (hgood t ht).1)
      (fun hmem => by
        rcases joinSegs_mem segs '\n' hmem with h | ⟨t, ht, hc⟩
        · exact absurd h (by decide)
        · exact (hgood t ht).2.2.1 hc)

/-- C9 as amended: for either collection kind, a file-style path built as
kind / s1 / ... / sn / last with n ≥ 1 intermediate segments — each
non-empty, slash-free, newline-free and distinct from "." and ".." — and
a non-empty slash-free final segment distinct from "." and "..", matches
that kind's item rule (index 3 for albums, 6 for playlists), with capture
group 1 the intermediate segments joined by separators (which may thus
contain separators) and capture group 2 the final segment. -/
theorem itemRuleGeneral (k : Bool) (segs : List (List Char))
    (g2 : List Char) (hsegs : segs ≠ [])
    (hgood : ∀ t ∈ segs,
      t ≠ [] ∧ '/' ∉ t ∧ '\n' ∉ t ∧ t ≠ ['.'] ∧ t ≠ ['.', '.'])
    (hg2 : g2 ≠ []) (hg2s : '/' ∉ g2) (hg2d : g2 ≠ ['.'])
    (hg2dd : g2 ≠ ['.', '.']) :
    (dirMatch [] (joinSegs ((if k then "album".data else "playlist".data)
        :: (segs ++ [g2]))) true).rule.map Prod.fst
      = some (if k then 3 else 6) ∧
    (dirMatch [] (joinSegs ((if k then "album".data else "playlist".data)
        :: (segs ++ [g2]))) true).caps
      = [joinSegs ((if k then "album".data else "playlist".data)
          :: (segs ++ [g2])), joinSegs segs, g2] := by
  cases k with
  | true =>
    obtain ⟨hip, hjoin, _, hfind⟩ := item_path_facts "album".data segs g2
      (by decide) hsegs hgood hg2 hg2s hg2d hg2dd
    have hloop : matchLoop patterns true
        (joinSegs ("album".data :: (segs ++ [g2]))) 0
        = some ([joinSegs ("album".data :: (segs ++ [g2])),
            joinSegs segs, g2], 3, p3AlbumItem) := by
      simp [matchLoop, patterns, p0Root, p1AlbumRoot, p2AlbumColl,
        p3AlbumItem, p4PlaylistRoot, p5PlaylistColl, p6PlaylistItem, hfind]
    simp [dirMatch, hip, hjoin, hloop]
  | false =>
    obtain ⟨hip, hjoin, hshape, hfind⟩ := item_path_facts "playlist".data
      segs g2 (by decide) hsegs hgood hg2 hg2s hg2d hg2dd
    have hnone : reItem "album".data
        (joinSegs ("playlist".data :: (segs ++ [g2]))) = none := by
      rw [hshape]
      exact reItem_album_playlist _
    have hloop : matchLoop patterns true
        (joinSegs ("playlist".data :: (segs ++ [g2]))) 0
        = some ([joinSegs ("playlist".data :: (segs ++ [g2])),
            joinSegs segs, g2], 6, p6PlaylistItem) := by
      simp [matchLoop, patterns, p0Root, p1AlbumRoot, p2AlbumColl,
        p3AlbumItem, p4PlaylistRoot, p5PlaylistColl, p6PlaylistItem,
        hfind, hnone]
    simp [dirMatch, hip, hjoin, hloop]

/-- C9 counterexample: the path "album/a/." has two non-empty segments
after the kind prefix and its final segment contains no separator, yet
the file-style match returns no rule — path cleaning removes the "."
segment before matching, so the claim as stated fails. -/
theorem itemRuleDotCex :
    (('a' :: []) ≠ ([] : List Char) ∧ ('.' :: []) ≠ ([] : List Char) ∧
      '/' ∉ ('.' :: [])) ∧
    "album/a/.".data = joinSegs ["album".data, ['a'], ['.']] ∧
    (dirMatch [] "album/a/.".data true).rule = none :=
  ⟨by decide, rfl, rfl⟩

/-- Witness for the amended C9: kind album, intermediate segments "a" and
"b", final segment "c" — the path album/a/b/c matches the album item rule
with group 1 "a/b" and group 2 "c". -/
theorem itemRuleGeneralWitness :
    (dirMatch [] "album/a/b/c".data true).rule.map Prod.fst = some 3 ∧
    (dirMatch [] "album/a/b/c".data true).caps
      = ["album/a/b/c".data, "a/b".data, "c".data] := by
  have h := itemRuleGeneral true [['a'], ['b']] ['c'] (by decide)
    (by decide) (by decide) (by decide) (by decide) (by decide)
  exact h

/-- C3: on every successful match the returned prefix is the portion of
the joined absolute path after the root, trimmed of separators, with
exactly one trailing separator appended iff that trimmed portion is
non-empty; and whenever the root and path join to the same absolute path
as an unrooted request, the winning rule and the capture groups coincide
with the unrooted case. -/
theorem prefixComputation (root reqPath reqPath0 : List Char) (wf : Bool) :
    ((dirMatch root reqPath wf).rule ≠ none →
      (dirMatch root reqPath wf).pfx =
        (let t := trimSeps ((goJoin root (trimSeps reqPath)).drop root.length)
         if t = [] then [] else t ++ ['/'])) ∧
    (goJoin root (trimSeps reqPath) = goJoin [] (trimSeps reqPath0) →
      (dirMatch root reqPath wf).rule = (dirMatch [] reqPath0 wf).rule ∧
      (dirMatch root reqPath wf).caps = (dirMatch [] reqPath0 wf).caps) := by
  constructor
  · intro hne
    simp only [dirMatch] at hne ⊢
    cases hm : matchLoop patterns wf (goJoin root (trimSeps reqPath)) 0 with
    | none => rw [hm] at hne; simp at hne
    | some v =>
      obtain ⟨m, i, q⟩ := v
      by_cases hp :
          trimSeps ((goJoin root (trimSeps reqPath)).drop root.length) = [] <;>
        simp [hp]
  · intro habs
    simp only [dirMatch, habs, List.drop_nil]
    cases hm : matchLoop patterns wf (goJoin [] (trimSeps reqPath0)) 0 with
    | none => simp [hm]
    | some v =>
      obtain ⟨m, i, q⟩ := v
      simp [hm]

/-- Witness for C3: with root "album" the path "Vacation/img1.jpg" joins
to the same absolute path as the unrooted "album/Vacation/img1.jpg"; the
rule and captures agree and the prefix follows the trimmed-suffix
formula. -/
theorem prefixComputationWitness :
    (dirMatch "album".data "Vacation/img1.jpg".data true).pfx =
      (let t := trimSeps
        ((goJoin "album".data (trimSeps "Vacation/img1.jpg".data)).drop
          "album".data.length)
       if t = [] then [] else t ++ ['/']) ∧
    ((dirMatch "album".data "Vacation/img1.jpg".data true).rule
        = (dirMatch [] "album/Vacation/img1.jpg".data true).rule ∧
      (dirMatch "album".data "Vacation/img1.jpg".data true).caps
        = (dirMatch [] "album/Vacation/img1.jpg".data true).caps) :=
  ⟨(prefixComputation "album".data "Vacation/img1.jpg".data
      "album/Vacation/img1.jpg".data true).1 (fun h => Option.noConfusion h),
   (prefixComputation "album".data "Vacation/img1.jpg".data
      "album/Vacation/img1.jpg".data true).2 rfl⟩

/-- A lister with no remote content, used to instantiate witnesses. -/
def constLister : Lister :=
  { listContainers := fun _ _ => .ok []
    listPhotos := fun _ _ _ => .ok []
    dirTime := 0 }

/-- Witness for the amended C2 at concrete inputs: a one-segment album
path for the file-style no-match case, an unknown top-level name for the
directory-style no-match case, and the filesystem root for the
canMkdir-false case. -/
theorem opErrorMappingWitness :
    (FsNewObject [] "album/Vacation".data = .error .objectNotFound ∧
      FsPut [] "album/Vacation".data = .error .cantUpload) ∧
    (FsList constLister [] "nosuch".data = .error .dirNotFound ∧
      FsMkdir [] "nosuch".data = .error .dirNotFound ∧
      FsRmdir [] "nosuch".data = .error .dirNotFound) ∧
    (FsMkdir [] [] = .error .cantMkdir ∧
      FsRmdir [] [] = .error .cantRmdir) :=
  ⟨(opErrorMapping [] "album/Vacation".data constLister).1 rfl,
   (opErrorMapping [] "nosuch".data constLister).2.1 rfl,
   (opErrorMapping [] [] constLister).2.2 rfl⟩
